import Mathlib

/-!
Verification of the r-proc streaming filter pipeline (Go) against its
design specification.  The Go sources are shallowly embedded below:

* `Processor` configuration and the per-line match/write loop of
  `Processor.Serve` (match modes, first-match tie-break, skip rules);
* `Processor.write` (the sink) over an explicit file-system state;
* the `bufio.Scanner` line bound (`scanner.Buffer(64<<10, 512<<20)`);
* file discovery (the `filepath.Walk` callback of `ProcessAndServe`);
* a small-step scheduler machine for the semaphore-bounded worker pool
  of `Processor.Serve` and the shutdown flag of `Processor.Shutdown`.

External dependencies (Go stdlib `strings`/`path/filepath`, `regexp`,
`jsoniter`) are modelled from their documented semantics; the repository
code itself is translated directly.
-/

namespace RProc

open List

/-! ### Models of Go stdlib string/path functions -/

/-- Model of Go `strings.ToLower`: lower-case every character. -/
def goToLower (s : String) : String :=
  ⟨s.data.map Char.toLower⟩

/-- Model of Go `strings.EqualFold`: equality under simple case folding,
modelled as equality of the lower-cased strings. -/
def eqFold (s t : String) : Bool :=
  goToLower s == goToLower t

/-- Model of Go `strings.Contains s sub`: `sub` occurs as a contiguous
substring of `s`; implemented as Go's `Index`-based search (some suffix of
`s` starts with `sub`). -/
def goContains (s sub : String) : Bool :=
  s.data.tails.any fun t => sub.data.isPrefixOf t

/-- Model of Go `filepath.Ext`: scan the path backwards; the extension is
the suffix from the final dot in the final element, empty if none. -/
def extScan : List Char → List Char → List Char
  | [], _ => []
  | c :: rest, acc =>
    if c = '/' then []
    else if c = '.' then c :: acc
    else extScan rest (c :: acc)

/-- Model of Go `filepath.Ext`. -/
def extName (p : String) : String :=
  ⟨extScan p.data.reverse []⟩

/-- Model of Go `filepath.Base`: last element of the path, trailing
separators removed; `""` gives `"."`, all-separators gives `"/"`. -/
def baseName (p : String) : String :=
  if p = "" then "."
  else
    let r := p.data.reverse.dropWhile (· = '/')
    if r = [] then "/"
    else ⟨(r.takeWhile (· ≠ '/')).reverse⟩

/-- Model of Go `strings.TrimSuffix`. -/
def trimSuffix (s suf : String) : String :=
  if suf.data.isSuffixOf s.data then ⟨s.data.take (s.data.length - suf.data.length)⟩
  else s

/-! ### Model of Go `regexp` searching

A compiled Go `*regexp.Regexp` is modelled as a `RegularExpression Char`.
Go's `Regexp.MatchString` reports whether the string *contains* any match
of the pattern (an unanchored search), modelled here as: some substring
(a prefix of some suffix) is accepted by the pattern. -/

/-- Model of Go `Regexp.MatchString`: unanchored search for the pattern
anywhere in the character list. -/
def reSearch (r : RegularExpression Char) (s : List Char) : Bool :=
  s.tails.any fun t => t.inits.any fun m => r.rmatch m

/-! ### Model of jsoniter field extraction

`jsoniter.Get(line, field).ToString()` is total over arbitrary line
bytes: a line that does not parse as a JSON object (or whose field is
absent) yields an invalid `Any`, whose `ToString` is the empty string;
a present field is rendered to text (string content verbatim, numeric
literal as written, `true`/`false` for booleans, empty for null). -/

/-- A JSON scalar value as jsoniter sees a record field. -/
inductive JsonVal where
  | str (s : String)
  | num (lit : String)
  | jbool (b : Bool)
  | null
  deriving DecidableEq, Repr

/-- Rendering of a field value by jsoniter `Any.ToString`. -/
def anyToString : JsonVal → String
  | .str s => s
  | .num lit => lit
  | .jbool b => if b then "true" else "false"
  | .null => ""

/-- What one raw line parses to: either not a JSON object, or an
association list of fields. -/
inductive LineContent where
  | invalid
  | record (fields : List (String × JsonVal))
  deriving DecidableEq, Repr

/-- One raw line of a decompressed input file: the raw bytes (as
characters) together with what they parse to. -/
structure Line where
  raw : List Char
  content : LineContent
  deriving DecidableEq, Repr

/-- Model of `jsoniter.Get(line, field).ToString()`. -/
def extractField : LineContent → String → String
  | .invalid, _ => ""
  | .record fields, f =>
    match fields.lookup f with
    | some v => anyToString v
    | none => ""

/-! ### Processor configuration (struct `Processor`, part_000 lines 50-67)

`ValuesRegex` is populated by `ProcessAndServe` (one compiled pattern per
candidate, in order) exactly when `MatchMode = "regex"`; compilation
itself (`regexp.MustCompile`) is external and fatal-on-error, so the
model starts from the compiled list. -/

structure ProcCfg where
  threads : Nat
  output : String
  field : String
  values : List String
  valuesRegex : List (RegularExpression Char)
  matchMode : String
  fileFilter : RegularExpression Char

/-- Structured log events, one constructor per `ErrorLog` call site in
`Processor.Serve` / `Processor.write` / `ProcessAndServe`. -/
inductive LogEvent where
  | errStat (path : String)
  | errOpen (path : String)
  | errZstd (path : String)
  | panicRecovered
  | warnSkipShutdown (path : String)
  | warnOpenOut (path : String)
  | warnWriteOut (path : String)
  | infoFound (path : String)
  | warnNoInput
  deriving DecidableEq, Repr

/-! ### The matcher (the `switch p.MatchMode` loop, part_000 lines 228-243) -/

/-- One candidate test of the `switch p.MatchMode` statement: `regex`
uses the compiled pattern (`MatchString`), `partial` is
`strings.Contains(strings.ToLower(fieldVal), strings.ToLower(val))`,
`exact` is `strings.EqualFold(fieldVal, val)`; any other mode string
leaves `matched` false. -/
def matchOne (mode : String) (re : RegularExpression Char) (val fieldVal : String) : Bool :=
  if mode = "regex" then reSearch re fieldVal.data
  else if mode = "partial" then goContains (goToLower fieldVal) (goToLower val)
  else if mode = "exact" then eqFold fieldVal val
  else false

/-- The `for i, val := range p.Values` loop with `break` on first match:
returns the first candidate (in configured order) that matches, pairing
`values` with `valuesRegex` positionally as `p.ValuesRegex[i]` does. -/
def findFirstMatch (mode : String) :
    List String → List (RegularExpression Char) → String → Option String
  | [], _, _ => none
  | v :: vs, rs, f =>
    if matchOne mode (rs.headD 0) v f then some v
    else findFirstMatch mode vs rs.tail f

/-- Candidate test at index `k` (as the loop's iteration `k` performs it). -/
def matchIdx (mode : String) (vs : List String)
    (rs : List (RegularExpression Char)) (f : String) (k : Nat) : Bool :=
  matchOne mode (rs.getD k 0) (vs.getD k "") f

/-! ### The sink (`Processor.write`, part_000 lines 258-278)

The file system is an association list from file names to contents, plus
the sets of names whose open / write would fail (modelling the two error
branches of `Processor.write`). -/

structure FS where
  files : List (String × List Char)
  failOpen : List String
  failWrite : List String
  deriving DecidableEq, Repr

/-- Append `s` to the entry for `n`, creating it if absent (the effect of
`os.OpenFile(..., O_APPEND|O_CREATE|O_WRONLY, ...)` + `WriteString`). -/
def fsAppend (files : List (String × List Char)) (n : String) (s : List Char) :
    List (String × List Char) :=
  match files with
  | [] => [(n, s)]
  | (m, c) :: rest =>
    if m = n then (m, c ++ s) :: rest else (m, c) :: fsAppend rest n s

/-- Create the entry for `n` empty if absent (the effect of a successful
`O_CREATE` open whose subsequent write fails). -/
def fsEnsure (files : List (String × List Char)) (n : String) :
    List (String × List Char) :=
  match files with
  | [] => [(n, [])]
  | (m, c) :: rest =>
    if m = n then (m, c) :: rest else (m, c) :: fsEnsure rest n

/-- The output file name computed by `Processor.write`:
`filepath.Join(p.Output, fmt.Sprintf("%s_%s.ndjson", strings.TrimSuffix(filepath.Base(inputPath), filepath.Ext(inputPath)), value))`. -/
def outFileName (output inputPath value : String) : String :=
  output ++ "/" ++ trimSuffix (baseName inputPath) (extName inputPath) ++ "_" ++ value ++ ".ndjson"

/-- `Processor.write`: open the output file for (stem, value) in
append/create mode and write `line + "\n"`; an open or write failure is
logged as a warning and the line is dropped. -/
def write (output : String) (fs : FS) (inputPath value : String) (raw : List Char) :
    FS × List LogEvent :=
  let n := outFileName output inputPath value
  if fs.failOpen.contains n then (fs, [.warnOpenOut n])
  else if fs.failWrite.contains n then
    ({ fs with files := fsEnsure fs.files n }, [.warnWriteOut n])
  else
    ({ fs with files := fsAppend fs.files n (raw ++ [ '\n' ]) }, [])

/-! ### Per-line processing (the body of the scan loop, part_000
lines 218-244) -/

/-- The match decision for one line: skip empty lines
(`len(line) == 0`), extract the field, skip empty field values, else
find the first matching candidate.  `some v` means the line is written
to the output file for candidate `v`. -/
def lineMatch (cfg : ProcCfg) (line : Line) : Option String :=
  if line.raw.isEmpty then none
  else
    let fieldVal := extractField line.content cfg.field
    if fieldVal = "" then none
    else findFirstMatch cfg.matchMode cfg.values cfg.valuesRegex fieldVal

/-- The names of the output files that receive this line (the write the
loop performs at the first match, if any). -/
def lineFiles (cfg : ProcCfg) (inputPath : String) (line : Line) : List String :=
  match lineMatch cfg line with
  | some v => [outFileName cfg.output inputPath v]
  | none => []

/-- Process one line against the file system: on a first match, perform
`p.write(file, val, string(line))`; otherwise no effect. -/
def handleLine (cfg : ProcCfg) (inputPath : String) (fs : FS) (line : Line) :
    FS × List LogEvent :=
  match lineMatch cfg line with
  | some v => write cfg.output fs inputPath v line.raw
  | none => (fs, [])

/-! ### The decoder line bound (`bufio.Scanner`, part_000 lines 190-191)

`scanner.Buffer(make([]byte, 64<<10), 512<<20)` bounds a token at
512 MiB; a newline-terminated line additionally needs its terminator in
the buffer, so a line fits iff `length + 1 ≤ 512<<20`.  When a line does
not fit, `Scan` returns `false` (with `bufio.ErrTooLong` available via
`scanner.Err()`, which `Serve` never inspects) and the loop ends. -/

def maxScanTokenSize : Nat := 512 * 1048576

/-- Whether one raw line fits inside the scanner's maximum buffer. -/
def lineFits (l : Line) : Bool :=
  decide (l.raw.length + 1 ≤ maxScanTokenSize)

/-- The sequence of lines the scan loop actually sees: the longest
prefix of fitting lines; the flag records whether scanning stopped on an
over-long line (the swallowed `ErrTooLong`). -/
def scanTake : List Line → List Line × Bool
  | [] => ([], false)
  | l :: rest =>
    if lineFits l then
      let r := scanTake rest
      (l :: r.1, r.2)
    else ([], true)

/-! ### One worker (the closure passed to `p.wg.Go`, part_000
lines 161-246) -/

/-- A discovered input file together with the faults its stat / open /
zstd-reader-construction steps would raise, and the lines its
decompressed content splits into. -/
structure InputFile where
  path : String
  statErr : Bool
  openErr : Bool
  zstdErr : Bool
  lines : List Line
  deriving DecidableEq, Repr

/-- How a worker's loop ended. -/
inductive WExit where
  | panicked
  | completedFile
  | shutdownStop
  deriving DecidableEq, Repr

/-- Result of one worker run. -/
structure WorkerRes where
  fs : FS
  logs : List LogEvent
  processed : Nat
  exit : WExit
  deriving DecidableEq, Repr

/-- The scan loop: `shut k` is the value of `p.shuttingDown()` at the
`k`-th poll (the loop checks the flag at the top of every iteration,
before the skip tests); `processed` counts lines whose iteration ran to
completion. -/
def procLines (cfg : ProcCfg) (path : String) (shut : Nat → Bool) :
    FS → Nat → List Line → WorkerRes
  | fs, _, [] => ⟨fs, [], 0, .completedFile⟩
  | fs, k, l :: rest =>
    if shut k then ⟨fs, [.warnSkipShutdown path], 0, .shutdownStop⟩
    else
      let p := handleLine cfg path fs l
      let r := procLines cfg path shut p.1 (k + 1) rest
      ⟨r.fs, p.2 ++ r.logs, r.processed + 1, r.exit⟩

/-- The setup faults of a worker, in the order the code checks them
(`os.Stat`, `os.Open`, `zstd.NewReader`); each logs its error and then
panics (recovered by the worker's deferred handler). -/
def setupFail (f : InputFile) : Option LogEvent :=
  if f.statErr then some (.errStat f.path)
  else if f.openErr then some (.errOpen f.path)
  else if f.zstdErr then some (.errZstd f.path)
  else none

/-- One whole worker: setup faults are logged, recovered and end the
worker; otherwise the scan loop runs over the fitting prefix of the
file's lines (an over-long line silently ends the scan: `scanner.Err()`
is never checked). -/
def runWorker (cfg : ProcCfg) (fs : FS) (file : InputFile) (shut : Nat → Bool) :
    WorkerRes :=
  match setupFail file with
  | some ev => ⟨fs, [ev, .panicRecovered], 0, .panicked⟩
  | none => procLines cfg file.path shut fs 0 (scanTake file.lines).1

/-! ### Discovery (the `filepath.Walk` callback of `ProcessAndServe`,
part_000 lines 107-133)

Go's `filepath.Walk` presents the root and every entry beneath it, in
depth-first order, to the callback; a stat/readdir failure is delivered
as a non-nil `err` for the affected entry.  The repository's code is the
callback: it aborts on a delivered error, skips directories and files
whose extension is not `.zst`, skips names not matching `FileFilter`
(an unanchored `MatchString`), and collects the rest. -/

/-- One entry as `filepath.Walk` presents it to the callback. -/
structure Entry where
  path : String
  name : String
  isDir : Bool
  err : Bool
  deriving DecidableEq, Repr

/-- Whether the callback keeps this entry (regular file, `.zst`
extension, name matching the filter pattern). -/
def eligible (filt : RegularExpression Char) (e : Entry) : Bool :=
  !e.isDir && extName e.name == ".zst" && reSearch filt e.name.data

/-- The walk callback folded over the visit sequence: a delivered error
aborts the whole walk with that error (no partial result); otherwise the
eligible paths are collected in traversal order. -/
def discover (filt : RegularExpression Char) : List Entry → Except String (List String)
  | [] => .ok []
  | e :: es =>
    if e.err then .error e.path
    else if eligible filt e then
      match discover filt es with
      | .ok l => .ok (e.path :: l)
      | .error p => .error p
    else discover filt es

/-- Outcome of `ProcessAndServe` before any worker runs. -/
inductive RunResult where
  | closed
  | walkError (p : String)
  | noInput
  | served (files : List String)
  deriving DecidableEq, Repr

/-- `ProcessAndServe` (part_000 lines 96-134): fail fast when already
shutting down, walk the input root, propagate a walk error, warn and
succeed doing no work on an empty result, else hand the list to
`Serve`.  Regex compilation (`regexp.MustCompile`, fatal before any
work) is taken as already done in `cfg.valuesRegex`. -/
def ProcessAndServe (cfg : ProcCfg) (shuttingDown : Bool) (visits : List Entry) :
    RunResult × List LogEvent :=
  if shuttingDown then (.closed, [])
  else
    match discover cfg.fileFilter visits with
    | .error p => (.walkError p, [])
    | .ok [] => (.noInput, [.warnNoInput])
    | .ok l => (.served l, l.map .infoFound)

/-! ### The shutdown select (`Processor.Shutdown`, part_000 lines 73-94)

`Shutdown` stores the flag, then selects between `ctx.Done()` (the
caller's deadline) and the wait-group completion channel; it returns
`nil` when every admitted worker has terminated strictly before the
deadline, and the context's deadline-exceeded error otherwise. -/

def ShutdownOutcome (deadline : Nat) (workersDoneAt : Option Nat) : Except String Unit :=
  match workersDoneAt with
  | some t => if t < deadline then .ok () else .error "context deadline exceeded"
  | none => .error "context deadline exceeded"

/-! ### The worker-pool machine (`Processor.Serve`, part_000
lines 142-256)

A small-step machine for the semaphore-bounded pool: the main loop
admits workers (one semaphore slot each, no shutdown check — the
`sem.Acquire` context is never cancelled and the loop body does not
consult the flag); each worker runs setup, then alternates polling the
shutdown flag (loop top) with executing one line (match + write).
`Shutdown` is the step that sets the flag.  The slot is released exactly
once on any worker exit (the deferred `sem.Release(1)`). -/

/-- Where a worker stands: before setup; at the loop top about to poll
the flag (`polls` polls made, `rest` lines left); or past a poll that
saw the flag unset, committed to fully processing `cur`. -/
inductive Phase where
  | starting
  | scanning (polls : Nat) (rest : List Line)
  | committed (polls : Nat) (cur : Line) (rest : List Line)
  deriving DecidableEq, Repr

structure Worker where
  file : InputFile
  phase : Phase
  deriving DecidableEq, Repr

/-- The pool state.  `admitted` records each admitted file's path (ghost
history for the no-retry property); `execCount` counts fully processed
lines; `writes` records each performed write as
(input path, matched value, raw line). -/
structure Sched where
  cfg : ProcCfg
  queue : List InputFile
  avail : Nat
  active : List Worker
  admitted : List String
  shutdown : Bool
  events : List LogEvent
  writes : List (String × String × List Char)
  execCount : Nat

/-- The machine's actions: admit the next queued file, run a worker's
setup, poll the flag, execute the committed line, or set the shutdown
flag. -/
inductive Act where
  | acquire
  | setup (i : Nat)
  | poll (i : Nat)
  | exec (i : Nat)
  | shut
  deriving DecidableEq, Repr

/-- Worker `i` exits: it is removed, its slot is released (exactly
once), and its final log events are appended. -/
def exitW (s : Sched) (i : Nat) (lg : List LogEvent) : Sched :=
  { s with active := s.active.eraseIdx i, avail := s.avail + 1,
           events := s.events ++ lg }

/-- One step of the machine; `none` when the action cannot fire (e.g.
admission blocks while no slot is free). -/
def step (s : Sched) : Act → Option Sched
  | .acquire =>
    match s.queue with
    | [] => none
    | f :: q =>
      match s.avail with
      | 0 => none
      | a + 1 => some { s with queue := q, avail := a,
                               active := s.active ++ [⟨f, .starting⟩],
                               admitted := s.admitted ++ [f.path] }
  | .setup i =>
    match s.active[i]? with
    | none => none
    | some w =>
      match w.phase with
      | .starting =>
        match setupFail w.file with
        | some ev => some (exitW s i [ev, .panicRecovered])
        | none => some { s with active := s.active.set i ⟨w.file, .scanning 0 (scanTake w.file.lines).1⟩ }
      | _ => none
  | .poll i =>
    match s.active[i]? with
    | none => none
    | some w =>
      match w.phase with
      | .scanning _ [] => some (exitW s i [])
      | .scanning k (l :: rest) =>
        if s.shutdown then some (exitW s i [.warnSkipShutdown w.file.path])
        else some { s with active := s.active.set i ⟨w.file, .committed k l rest⟩ }
      | _ => none
  | .exec i =>
    match s.active[i]? with
    | none => none
    | some w =>
      match w.phase with
      | .committed k l rest =>
        some { s with writes := s.writes ++ ((lineMatch s.cfg l).toList.map fun v => (w.file.path, v, l.raw)),
                      active := s.active.set i ⟨w.file, .scanning (k + 1) rest⟩,
                      execCount := s.execCount + 1 }
      | _ => none
  | .shut => some { s with shutdown := true }

/-- Run a list of actions from a state. -/
def runM (s : Sched) : List Act → Option Sched
  | [] => some s
  | a :: as =>
    match step s a with
    | some s' => runM s' as
    | none => none

/-- The initial state `Serve` starts from: all `N` slots free, no active
worker, the discovered files queued. -/
def initSched (cfg : ProcCfg) (files : List InputFile) : Sched :=
  ⟨cfg, files, cfg.threads, [], [], false, [], [], 0⟩

/-- Whether a worker is committed to (mid-way through) a line. -/
def isCommitted (w : Worker) : Bool :=
  match w.phase with
  | .committed _ _ _ => true
  | _ => false

/-- Number of workers currently committed to a line (mid-line in-flight
work). -/
def committedCount (s : Sched) : Nat :=
  s.active.countP isCommitted

/-! ### Machine invariants -/

theorem countP_eraseIdx_le (p : α → Bool) (l : List α) (i : Nat) :
    (l.eraseIdx i).countP p ≤ l.countP p := by
  induction l generalizing i with
  | nil => simp [List.eraseIdx]
  | cons x xs ih =>
    cases i with
    | zero =>
      rw [List.eraseIdx, List.countP_cons]
      exact Nat.le_add_right _ _
    | succ n =>
      rw [List.eraseIdx, List.countP_cons, List.countP_cons]
      exact Nat.add_le_add_right (ih n) _

theorem countP_set_balance (p : α → Bool) {l : List α} {i : Nat} {w : α}
    (h : l[i]? = some w) (w' : α) :
    (l.set i w').countP p + (if p w then 1 else 0)
      = l.countP p + (if p w' then 1 else 0) := by
  induction l generalizing i with
  | nil => simp at h
  | cons x xs ih =>
    cases i with
    | zero =>
      simp only [List.getElem?_cons_zero, Option.some.injEq] at h
      subst h
      rw [List.set, List.countP_cons, List.countP_cons]
      omega
    | succ n =>
      simp only [List.getElem?_cons_succ] at h
      rw [List.set, List.countP_cons, List.countP_cons]
      have := ih h
      omega

/-- Exhaustive characterization of a successful machine step. -/
theorem step_cases {s s' : Sched} {a : Act} (h : step s a = some s') :
    (∃ f q aa, s.queue = f :: q ∧ s.avail = aa + 1 ∧
      s' = { s with queue := q, avail := aa,
                    active := s.active ++ [⟨f, .starting⟩],
                    admitted := s.admitted ++ [f.path] }) ∨
    (∃ i w ev, s.active[i]? = some w ∧ w.phase = .starting ∧
      setupFail w.file = some ev ∧ s' = exitW s i [ev, .panicRecovered]) ∨
    (∃ i w, s.active[i]? = some w ∧ w.phase = .starting ∧ setupFail w.file = none ∧
      s' = { s with active := s.active.set i ⟨w.file, .scanning 0 (scanTake w.file.lines).1⟩ }) ∨
    (∃ i w k, s.active[i]? = some w ∧ w.phase = .scanning k [] ∧ s' = exitW s i []) ∨
    (∃ i w k l rest, s.active[i]? = some w ∧ w.phase = .scanning k (l :: rest) ∧
      s.shutdown = true ∧ s' = exitW s i [.warnSkipShutdown w.file.path]) ∨
    (∃ i w k l rest, s.active[i]? = some w ∧ w.phase = .scanning k (l :: rest) ∧
      s.shutdown = false ∧
      s' = { s with active := s.active.set i ⟨w.file, .committed k l rest⟩ }) ∨
    (∃ i w k l rest, s.active[i]? = some w ∧ w.phase = .committed k l rest ∧
      s' = { s with
        writes := s.writes ++ ((lineMatch s.cfg l).toList.map fun v => (w.file.path, v, l.raw)),
        active := s.active.set i ⟨w.file, .scanning (k + 1) rest⟩,
        execCount := s.execCount + 1 }) ∨
    (s' = { s with shutdown := true }) := by
  cases a with
  | acquire =>
    simp only [step] at h
    split at h
    · exact absurd h (by simp)
    · rename_i f q hq
      split at h
      · exact absurd h (by simp)
      · rename_i aa hav
        rw [Option.some.injEq] at h
        exact Or.inl ⟨f, q, aa, hq, hav, h.symm⟩
  | setup i =>
    simp only [step] at h
    split at h
    · exact absurd h (by simp)
    · rename_i w hw
      split at h
      · split at h
        · rename_i hph _ ev hf
          rw [Option.some.injEq] at h
          exact Or.inr (Or.inl ⟨i, w, ev, hw, hph, hf, h.symm⟩)
        · rename_i hph _ hf
          rw [Option.some.injEq] at h
          exact Or.inr (Or.inr (Or.inl ⟨i, w, hw, hph, hf, h.symm⟩))
      · exact absurd h (by simp)
  | poll i =>
    simp only [step] at h
    split at h
    · exact absurd h (by simp)
    · rename_i w hw
      split at h
      · rename_i k hph
        rw [Option.some.injEq] at h
        exact Or.inr (Or.inr (Or.inr (Or.inl ⟨i, w, k, hw, hph, h.symm⟩)))
      · rename_i k l rest hph
        split at h
        · rename_i hsd
          rw [Option.some.injEq] at h
          exact Or.inr (Or.inr (Or.inr (Or.inr (Or.inl
            ⟨i, w, k, l, rest, hw, hph, hsd, h.symm⟩))))
        · rename_i hsd
          rw [Option.some.injEq] at h
          exact Or.inr (Or.inr (Or.inr (Or.inr (Or.inr (Or.inl
            ⟨i, w, k, l, rest, hw, hph, Bool.not_eq_true _ ▸ hsd, h.symm⟩)))))
      · exact absurd h (by simp)
  | exec i =>
    simp only [step] at h
    split at h
    · exact absurd h (by simp)
    · rename_i w hw
      split at h
      · rename_i k l rest hph
        rw [Option.some.injEq] at h
        exact Or.inr (Or.inr (Or.inr (Or.inr (Or.inr (Or.inr (Or.inl
          ⟨i, w, k, l, rest, hw, hph, h.symm⟩))))))
      · exact absurd h (by simp)
  | shut =>
    simp only [step] at h
    rw [Option.some.injEq] at h
    exact Or.inr (Or.inr (Or.inr (Or.inr (Or.inr (Or.inr (Or.inr h.symm))))))

theorem getElem?_some_lt {l : List α} {i : Nat} {w : α} (h : l[i]? = some w) :
    i < l.length :=
  (List.getElem?_eq_some_iff.mp h).1

/-- Each step preserves the semaphore accounting: free slots plus active
workers is constant (admission takes a slot, every exit path releases
it exactly once). -/
theorem step_avail {s s' : Sched} {a : Act} (h : step s a = some s') :
    s'.avail + s'.active.length = s.avail + s.active.length := by
  rcases step_cases h with
      ⟨f, q, aa, hq, hav, rfl⟩ | ⟨i, w, ev, hi, hp, hf, rfl⟩ | ⟨i, w, hi, hp, hf, rfl⟩ |
      ⟨i, w, k, hi, hp, rfl⟩ | ⟨i, w, k, l, rest, hi, hp, hsd, rfl⟩ |
      ⟨i, w, k, l, rest, hi, hp, hsd, rfl⟩ | ⟨i, w, k, l, rest, hi, hp, rfl⟩ | rfl
  · simp [hav]; omega
  · have := getElem?_some_lt hi
    simp [exitW, List.length_eraseIdx_of_lt this]; omega
  · simp
  · have := getElem?_some_lt hi
    simp [exitW, List.length_eraseIdx_of_lt this]; omega
  · have := getElem?_some_lt hi
    simp [exitW, List.length_eraseIdx_of_lt this]; omega
  · simp
  · simp
  · simp

/-- Each step can only turn the shutdown flag on, never off. -/
theorem step_shutdown_mono {s s' : Sched} {a : Act} (h : step s a = some s')
    (hsd : s.shutdown = true) : s'.shutdown = true := by
  rcases step_cases h with
      ⟨f, q, aa, hq, hav, rfl⟩ | ⟨i, w, ev, hi, hp, hf, rfl⟩ | ⟨i, w, hi, hp, hf, rfl⟩ |
      ⟨i, w, k, hi, hp, rfl⟩ | ⟨i, w, k, l, rest, hi, hp, hsd', rfl⟩ |
      ⟨i, w, k, l, rest, hi, hp, hsd', rfl⟩ | ⟨i, w, k, l, rest, hi, hp, rfl⟩ | rfl <;>
    simp [exitW, hsd]

/-- Once the shutdown flag is set, the number of further fully processed
lines is bounded by the number of workers already committed to their
current line: a committed worker finishes that one line, and no worker
commits to another. -/
theorem step_shut_exec {s s' : Sched} {a : Act} (h : step s a = some s')
    (hsd : s.shutdown = true) :
    s'.execCount + committedCount s' ≤ s.execCount + committedCount s := by
  rcases step_cases h with
      ⟨f, q, aa, hq, hav, rfl⟩ | ⟨i, w, ev, hi, hp, hf, rfl⟩ | ⟨i, w, hi, hp, hf, rfl⟩ |
      ⟨i, w, k, hi, hp, rfl⟩ | ⟨i, w, k, l, rest, hi, hp, hsd', rfl⟩ |
      ⟨i, w, k, l, rest, hi, hp, hsd', rfl⟩ | ⟨i, w, k, l, rest, hi, hp, rfl⟩ | rfl
  · simp [committedCount, isCommitted]
  · exact Nat.add_le_add_left (countP_eraseIdx_le _ _ _) _
  · have hb := countP_set_balance isCommitted hi (⟨w.file, .scanning 0 (scanTake w.file.lines).1⟩ : Worker)
    simp [committedCount, isCommitted, hp] at hb ⊢
    omega
  · exact Nat.add_le_add_left (countP_eraseIdx_le _ _ _) _
  · exact Nat.add_le_add_left (countP_eraseIdx_le _ _ _) _
  · rw [hsd] at hsd'; exact absurd hsd' (by simp)
  · have hb := countP_set_balance isCommitted hi (⟨w.file, .scanning (k + 1) rest⟩ : Worker)
    simp [committedCount, isCommitted, hp] at hb ⊢
    omega
  · simp [committedCount]

/-- Each step conserves the admission history: a file leaves the queue
exactly when its path is appended to the admitted list, and admitted
entries are never removed — so no file is ever re-queued or re-admitted. -/
theorem step_admitted {s s' : Sched} {a : Act} (h : step s a = some s') :
    s'.admitted ++ s'.queue.map (·.path) = s.admitted ++ s.queue.map (·.path) := by
  rcases step_cases h with
      ⟨f, q, aa, hq, hav, rfl⟩ | ⟨i, w, ev, hi, hp, hf, rfl⟩ | ⟨i, w, hi, hp, hf, rfl⟩ |
      ⟨i, w, k, hi, hp, rfl⟩ | ⟨i, w, k, l, rest, hi, hp, hsd, rfl⟩ |
      ⟨i, w, k, l, rest, hi, hp, hsd, rfl⟩ | ⟨i, w, k, l, rest, hi, hp, rfl⟩ | rfl
  · simp [hq, List.append_assoc]
  all_goals simp [exitW]

/-- Lift a reflexive, transitive, step-preserved relation to runs. -/
theorem runM_rel {R : Sched → Sched → Prop} (hrefl : ∀ s, R s s)
    (htrans : ∀ {s t u}, R s t → R t u → R s u)
    (hstep : ∀ {s a s'}, step s a = some s' → R s s') :
    ∀ {acts : List Act} {s s' : Sched}, runM s acts = some s' → R s s' := by
  intro acts
  induction acts with
  | nil =>
    intro s s' h
    rw [runM, Option.some.injEq] at h
    exact h ▸ hrefl s
  | cons a as ih =>
    intro s s' h
    rw [runM] at h
    split at h
    · rename_i t ht
      exact htrans (hstep ht) (ih h)
    · exact absurd h (by simp)

/-- Run-level semaphore accounting. -/
theorem runM_avail {acts : List Act} {s s' : Sched} (h : runM s acts = some s') :
    s'.avail + s'.active.length = s.avail + s.active.length :=
  runM_rel (R := fun s s' => s'.avail + s'.active.length = s.avail + s.active.length)
    (fun _ => rfl) (fun h1 h2 => h2.trans h1) step_avail h

/-- Run-level shutdown monotonicity. -/
theorem runM_shutdown_mono {acts : List Act} {s s' : Sched} (h : runM s acts = some s')
    (hsd : s.shutdown = true) : s'.shutdown = true :=
  runM_rel (R := fun s s' => s.shutdown = true → s'.shutdown = true)
    (fun _ h => h) (fun h1 h2 h => h2 (h1 h)) (fun hst h => step_shutdown_mono hst h) h hsd

/-- Run-level post-shutdown processing bound. -/
theorem runM_shut_exec {acts : List Act} {s s' : Sched} (h : runM s acts = some s')
    (hsd : s.shutdown = true) :
    s'.execCount + committedCount s' ≤ s.execCount + committedCount s := by
  have := runM_rel
    (R := fun s s' => s.shutdown = true →
      s'.shutdown = true ∧
        s'.execCount + committedCount s' ≤ s.execCount + committedCount s)
    (fun _ h => ⟨h, le_refl _⟩)
    (fun h1 h2 h => by
      obtain ⟨hsd1, hle1⟩ := h1 h
      obtain ⟨hsd2, hle2⟩ := h2 hsd1
      exact ⟨hsd2, hle2.trans hle1⟩)
    (fun hst h => ⟨step_shutdown_mono hst h, step_shut_exec hst h⟩) h
  exact (this hsd).2

/-- Run-level admission-history conservation. -/
theorem runM_admitted {acts : List Act} {s s' : Sched} (h : runM s acts = some s') :
    s'.admitted ++ s'.queue.map (·.path) = s.admitted ++ s.queue.map (·.path) :=
  runM_rel (R := fun s s' =>
      s'.admitted ++ s'.queue.map (·.path) = s.admitted ++ s.queue.map (·.path))
    (fun _ => rfl) (fun h1 h2 => h2.trans h1) step_admitted h

/-! ### Concrete example data (used by witnesses and counterexamples) -/

def emptyFS : FS := ⟨[], [], []⟩

def c3Cfg : ProcCfg := ⟨1, "out", "f", ["a", "ab"], [], "partial", 0⟩

def c3Line : Line := ⟨"zab".data, .record [("f", .str "zab")]⟩

def c10Cfg : ProcCfg := ⟨1, "out", "score", ["42"], [], "exact", 0⟩

def c5Line : Line := ⟨[], .invalid⟩

def c2Cfg : ProcCfg := ⟨1, "out", "f", ["x"], [], "exact", 0⟩

def okLineA : Line := ⟨"A".data, .record [("f", .str "x")]⟩

def okLineB : Line := ⟨"B".data, .record [("f", .str "x")]⟩

/-- A raw line one character too long for the scanner's 512 MiB buffer
(its terminator no longer fits). -/
def bigLine : Line := ⟨List.replicate (512 * 1048576) 'y', .invalid⟩

def c2File : InputFile := ⟨"in/a.zst", false, false, false, [okLineA, bigLine, okLineB]⟩

def c1Cfg : ProcCfg := ⟨1, "out", "f", ["x"], [], "exact", 0⟩

def lineN : Line := ⟨"n".data, .invalid⟩

def c1FileA : InputFile := ⟨"in/a.zst", false, false, false, [lineN]⟩

def c1FileB : InputFile := ⟨"in/b.zst", false, false, false, [lineN]⟩

/-- A state with the shutdown flag already set and one worker mid-line. -/
def c1WitState : Sched :=
  ⟨c1Cfg, [], 0, [⟨c1FileA, .committed 0 lineN []⟩], ["in/a.zst"], true, [], [], 0⟩

/-- The state `c1WitState` reaches after that worker finishes its current
line and exits at the next poll. -/
def c1WitSPost : Sched := ⟨c1Cfg, [], 1, [], ["in/a.zst"], true, [], [], 1⟩

def c6Cfg : ProcCfg := ⟨2, "out", "f", ["x"], [], "exact", 0⟩

def c6f1 : InputFile := ⟨"in/1.zst", false, false, false, []⟩

def c6f2 : InputFile := ⟨"in/2.zst", false, false, false, []⟩

def c6f3 : InputFile := ⟨"in/3.zst", false, false, false, []⟩

/-- The state after two admissions with two configured threads. -/
def c6S : Sched :=
  ⟨c6Cfg, [c6f3], 0, [⟨c6f1, .starting⟩, ⟨c6f2, .starting⟩],
   ["in/1.zst", "in/2.zst"], false, [], [], 0⟩

def badFile : InputFile := ⟨"in/bad.zst", true, false, false, []⟩

def c7okFile : InputFile := ⟨"in/ok.zst", false, false, false, []⟩

def c7Cfg : ProcCfg := ⟨2, "out", "f", ["x"], [], "exact", 0⟩

/-- A broken worker alongside a healthy sibling. -/
def c7S : Sched :=
  ⟨c7Cfg, [], 0, [⟨badFile, .starting⟩, ⟨c7okFile, .scanning 0 []⟩],
   ["in/bad.zst", "in/ok.zst"], false, [], [], 0⟩

def c9Cfg : ProcCfg := ⟨1, "out", "f", ["x"], [], "exact", .char 'a'⟩

def eDir : Entry := ⟨"in/sub", "sub", true, false⟩

def eGood : Entry := ⟨"in/sub/a.zst", "a.zst", false, false⟩

def eBadExt : Entry := ⟨"in/a.txt", "a.txt", false, false⟩

def eNoMatch : Entry := ⟨"in/b.zst", "b.zst", false, false⟩

def eErr : Entry := ⟨"in/broken", "broken", false, true⟩

def c8FSopen : FS := ⟨[], [outFileName "out" "in/a.zst" "x"], []⟩

def c8FSwrite : FS := ⟨[], [], [outFileName "out" "in/a.zst" "x"]⟩

/-! ### Model lemmas -/

/-- `reSearch` is correct: it succeeds exactly when some contiguous
substring of `s` is in the language of the pattern. -/
theorem reSearch_iff (r : RegularExpression Char) (s : List Char) :
    reSearch r s = true ↔ ∃ m, m <:+: s ∧ m ∈ r.matches' := by
  unfold reSearch
  rw [List.any_eq_true]
  constructor
  · rintro ⟨t, ht, hin⟩
    rw [List.any_eq_true] at hin
    obtain ⟨m, hm, hr⟩ := hin
    refine ⟨m, ?_, (RegularExpression.rmatch_iff_matches' r m).mp hr⟩
    rw [ List.infix_iff_prefix_suffix]
    exact ⟨t, (List.mem_inits m t).mp hm, (List.mem_tails t s).mp ht⟩
  · rintro ⟨m, hinf, hmem⟩
    rw [ List.infix_iff_prefix_suffix] at hinf
    obtain ⟨t, hpre, hsuf⟩ := hinf
    refine ⟨t, (List.mem_tails t s).mpr hsuf, ?_⟩
    rw [List.any_eq_true]
    exact ⟨m, (List.mem_inits m t).mpr hpre,
      (RegularExpression.rmatch_iff_matches' r m).mpr hmem⟩

/-- `goContains` is correct: it succeeds exactly when the needle is a
contiguous substring (infix) of the haystack. -/
theorem goContains_iff (s sub : String) :
    goContains s sub = true ↔ sub.data <:+: s.data := by
  unfold goContains
  rw [List.any_eq_true]
  constructor
  · rintro ⟨t, ht, hp⟩
    rw [ List.isPrefixOf_iff_prefix] at hp
    rw [ List.infix_iff_prefix_suffix]
    exact ⟨t, hp, (List.mem_tails t s.data).mp ht⟩
  · intro h
    rw [ List.infix_iff_prefix_suffix] at h
    obtain ⟨t, hpre, hsuf⟩ := h
    refine ⟨t, (List.mem_tails t s.data).mpr hsuf, ?_⟩
    rw [ List.isPrefixOf_iff_prefix]
    exact hpre

/-! ### Matcher lemmas -/

theorem headD_eq_getD_zero (rs : List (RegularExpression Char)) :
    rs.headD 0 = rs.getD 0 0 := by
  cases rs <;> rfl

theorem tail_getD (rs : List (RegularExpression Char)) (m : Nat) :
    rs.tail.getD m 0 = rs.getD (m + 1) 0 := by
  cases rs <;> simp [List.getD]

/-- A successful first-match search returns the candidate at the least
matching index: it matches, and every earlier candidate fails. -/
theorem findFirstMatch_some {mode : String} {vs : List String}
    {rs : List (RegularExpression Char)} {f v : String}
    (h : findFirstMatch mode vs rs f = some v) :
    ∃ k, k < vs.length ∧ v = vs.getD k "" ∧ matchIdx mode vs rs f k = true ∧
      ∀ m, m < k → matchIdx mode vs rs f m = false := by
  induction vs generalizing rs with
  | nil => rw [findFirstMatch] at h; exact absurd h (by simp)
  | cons x xs ih =>
    rw [findFirstMatch] at h
    split at h
    · rename_i ht
      rw [Option.some.injEq] at h
      subst h
      refine ⟨0, by simp, by simp, ?_, by omega⟩
      rw [matchIdx, List.getD_cons_zero, ← headD_eq_getD_zero]
      exact ht
    · rename_i ht
      obtain ⟨k, hk, hv, hm, hall⟩ := ih h
      refine ⟨k + 1, by simpa using hk, by simpa using hv, ?_, ?_⟩
      · rw [matchIdx] at hm ⊢
        rwa [tail_getD] at hm
      · intro m hmk
        cases m with
        | zero =>
          rw [matchIdx, List.getD_cons_zero, ← headD_eq_getD_zero]
          simp only [Bool.not_eq_true] at ht
          exact ht
        | succ m' =>
          have := hall m' (by omega)
          rw [matchIdx] at this ⊢
          rwa [tail_getD] at this

/-- If any candidate matches, the first-match search succeeds. -/
theorem findFirstMatch_isSome {mode : String} {vs : List String}
    {rs : List (RegularExpression Char)} {f : String} {j : Nat}
    (hj : j < vs.length) (hm : matchIdx mode vs rs f j = true) :
    ∃ v, findFirstMatch mode vs rs f = some v := by
  induction vs generalizing rs j with
  | nil => simp at hj
  | cons x xs ih =>
    rw [findFirstMatch]
    split
    · exact ⟨x, rfl⟩
    · rename_i ht
      cases j with
      | zero =>
        rw [matchIdx, List.getD_cons_zero, ← headD_eq_getD_zero] at hm
        exact absurd hm ht
      | succ j' =>
        refine ih (j := j') (by simpa using hj) ?_
        rw [matchIdx] at hm ⊢
        rwa [tail_getD]

/-! ### Scanner lemmas -/

theorem scanTake_all_fit {ls : List Line} (h : ∀ l ∈ ls, lineFits l = true) :
    scanTake ls = (ls, false) := by
  induction ls with
  | nil => rfl
  | cons x xs ih =>
    rw [scanTake, if_pos (h x (by simp)), ih fun l hl => h l (by simp [hl])]

theorem scanTake_stops {pre : List Line} {l : Line} (suf : List Line)
    (hfit : ∀ x ∈ pre, lineFits x = true) (hbig : lineFits l = false) :
    scanTake (pre ++ l :: suf) = (pre, true) := by
  induction pre with
  | nil => simp [scanTake, hbig]
  | cons x xs ih =>
    rw [List.cons_append, scanTake, if_pos (hfit x (by simp)),
      ih fun y hy => hfit y (by simp [hy])]

/-! ### Discovery lemmas -/

theorem discover_ok {filt : RegularExpression Char} {visits : List Entry}
    (h : ∀ e ∈ visits, e.err = false) :
    discover filt visits = .ok ((visits.filter (eligible filt)).map (·.path)) := by
  induction visits with
  | nil => rfl
  | cons e es ih =>
    have he : e.err = false := h e (by simp)
    rw [discover, if_neg (by simp [he])]
    by_cases hel : eligible filt e = true
    · rw [if_pos hel, ih fun x hx => h x (by simp [hx]), List.filter_cons_of_pos hel]
      rfl
    · rw [if_neg hel, ih fun x hx => h x (by simp [hx]),
        List.filter_cons_of_neg (by simpa using hel)]

theorem discover_err {filt : RegularExpression Char} {visits : List Entry}
    (h : ∃ e ∈ visits, e.err = true) :
    ∃ p, discover filt visits = .error p := by
  induction visits with
  | nil => simp at h
  | cons e es ih =>
    by_cases he : e.err = true
    · exact ⟨e.path, by rw [discover, if_pos he]⟩
    · obtain ⟨x, hx, hxe⟩ := h
      rcases List.mem_cons.mp hx with rfl | hx'
      · exact absurd hxe he
      · obtain ⟨p, hp⟩ := ih ⟨x, hx', hxe⟩
        refine ⟨p, ?_⟩
        rw [discover, if_neg he]
        by_cases hel : eligible filt e = true
        · rw [if_pos hel, hp]
        · rw [if_neg hel, hp]

/-! ### Claim theorems -/

/-- C4: for every field value and candidate, exact mode matches iff the
field value and candidate are equal as full strings ignoring case;
partial mode iff the candidate is contained as a substring of the field
value ignoring case; regex mode iff the precompiled pattern is found
anywhere in the field value (an unanchored search over substrings, not a
full-string match). -/
theorem c4_match_modes (v f : String) (r : RegularExpression Char) :
    (matchOne "exact" r v f = true ↔ goToLower f = goToLower v) ∧
    (matchOne "partial" r v f = true ↔ (goToLower v).data <:+: (goToLower f).data) ∧
    (matchOne "regex" r v f = true ↔ ∃ m, m <:+: f.data ∧ m ∈ r.matches') := by
  refine ⟨?_, ?_, ?_⟩
  · rw [matchOne, if_neg (by decide), if_neg (by decide), if_pos rfl, eqFold]
    exact beq_iff_eq
  · rw [matchOne, if_neg (by decide), if_pos rfl]
    exact goContains_iff (goToLower f) (goToLower v)
  · rw [matchOne, if_pos rfl]
    exact reSearch_iff r f.data

/-- C5: a zero-length line is skipped entirely, and a line whose
configured field is absent or empty is never evaluated against any
candidate — for every candidate list and match mode the result is no
match — and never appears in any output file (no write, no log). -/
theorem c5_empty_field_skipped (cfg : ProcCfg) (inputPath : String) (fs : FS)
    (line : Line) :
    (line.raw = [] →
      lineMatch cfg line = none ∧ handleLine cfg inputPath fs line = (fs, []) ∧
      lineFiles cfg inputPath line = []) ∧
    (extractField line.content cfg.field = "" →
      (∀ mode values regexes,
        lineMatch { cfg with matchMode := mode, values := values,
                             valuesRegex := regexes } line = none) ∧
      handleLine cfg inputPath fs line = (fs, []) ∧
      lineFiles cfg inputPath line = []) := by
  constructor
  · intro h
    simp [lineMatch, handleLine, lineFiles, h]
  · intro h
    have hm : ∀ mode values regexes,
        lineMatch { cfg with matchMode := mode, values := values,
                             valuesRegex := regexes } line = none := by
      intro mode values regexes
      rw [lineMatch]
      by_cases he : line.raw.isEmpty
      · rw [if_pos he]
      · rw [if_neg he]
        simp [h]
    have hcfg : lineMatch cfg line = none := hm cfg.matchMode cfg.values cfg.valuesRegex
    refine ⟨hm, ?_, ?_⟩
    · rw [handleLine, hcfg]
    · rw [lineFiles, hcfg]

/-- C10: field extraction is total: a non-JSON line or an absent field
yields the empty string and the line is silently skipped (no write and
no log event); a present non-string scalar participates as its textual
representation (numeric literal as written, `true`/`false` for
booleans), so a numeric field `42` matches the candidate `"42"` in
exact mode. -/
theorem c10_field_extraction :
    (∀ g, extractField .invalid g = "") ∧
    (∀ (fields : List (String × JsonVal)) g, fields.lookup g = none →
      extractField (.record fields) g = "") ∧
    (∀ lit, anyToString (.num lit) = lit) ∧
    (∀ b, anyToString (.jbool b) = if b then "true" else "false") ∧
    (∀ (cfg : ProcCfg) (inputPath : String) (fs : FS) (line : Line),
      extractField line.content cfg.field = "" →
        handleLine cfg inputPath fs line = (fs, [])) ∧
    (∀ (cfg : ProcCfg) (raw : List Char),
      cfg.matchMode = "exact" → cfg.values = ["42"] → raw ≠ [] →
        lineMatch cfg ⟨raw, .record [(cfg.field, .num "42")]⟩ = some "42") := by
  refine ⟨fun g => rfl, ?_, fun lit => rfl, fun b => rfl, ?_, ?_⟩
  · intro fields g h
    rw [extractField, h]
  · intro cfg inputPath fs line h
    rw [handleLine, lineMatch]
    by_cases he : line.raw.isEmpty
    · rw [if_pos he]
    · rw [if_neg he]
      simp [if_pos h]
  · intro cfg raw hmode hvals hraw
    rw [lineMatch]
    rw [if_neg (by simpa using hraw)]
    have hfv : extractField (.record [(cfg.field, .num "42")]) cfg.field = "42" := by
      simp [extractField, List.lookup, anyToString]
    rw [hfv, if_neg (by decide), hmode, hvals, findFirstMatch,
      if_pos (by rw [matchOne, if_neg (by decide), if_neg (by decide), if_pos rfl]; decide)]

/-- C3: when a line's extracted field value matches more than one
candidate under the active mode, the line is written to exactly one
output file — the one for the first matching candidate in configured
order (the least matching index); no later candidate's file receives
it. -/
theorem c3_first_match_wins (cfg : ProcCfg) (inputPath : String) (line : Line)
    (i j : Nat) (hij : i < j) (hj : j < cfg.values.length)
    (hraw : line.raw ≠ [])
    (hfv : extractField line.content cfg.field ≠ "")
    (hi : matchIdx cfg.matchMode cfg.values cfg.valuesRegex
      (extractField line.content cfg.field) i = true)
    (_hjm : matchIdx cfg.matchMode cfg.values cfg.valuesRegex
      (extractField line.content cfg.field) j = true) :
    ∃ k, k ≤ i ∧
      matchIdx cfg.matchMode cfg.values cfg.valuesRegex
        (extractField line.content cfg.field) k = true ∧
      (∀ m, m < k → matchIdx cfg.matchMode cfg.values cfg.valuesRegex
        (extractField line.content cfg.field) m = false) ∧
      lineMatch cfg line = some (cfg.values.getD k "") ∧
      lineFiles cfg inputPath line =
        [outFileName cfg.output inputPath (cfg.values.getD k "")] := by
  obtain ⟨v, hv⟩ := findFirstMatch_isSome (lt_trans hij hj) hi
  obtain ⟨k, hk, hveq, hkm, hall⟩ := findFirstMatch_some hv
  have hki : k ≤ i := by
    by_contra hgt
    exact absurd hi (by simpa using hall i (by omega))
  have hlm : lineMatch cfg line = some (cfg.values.getD k "") := by
    rw [lineMatch, if_neg (by simpa using hraw), if_neg hfv, hv, hveq]
  exact ⟨k, hki, hkm, hall, hlm, by rw [lineFiles, hlm]⟩

theorem bigLine_not_fits : lineFits bigLine = false := by
  have h : bigLine.raw.length = 512 * 1048576 :=
    List.length_replicate (512 * 1048576) 'y'
  rw [lineFits, h]
  decide

/-- C2 (counterexample): `c2File` contains a line exceeding the decoder's
line bound, and its worker terminates at that line *without reporting any
error*: the run writes only the first line's match, emits no log event at
all (`scanner.Err()` is never consulted), and silently drops the third
line, which would have matched.  The spec's claim that the worker reports
a fatal decode error is false of the code. -/
theorem c2_counterexample :
    (∃ l ∈ c2File.lines, lineFits l = false) ∧
    runWorker c2Cfg emptyFS c2File (fun _ => false) =
      ⟨⟨[("out/a_x.ndjson", [ 'A', '\n' ])], [], []⟩, [], 1, .completedFile⟩ := by
  constructor
  · exact ⟨bigLine,
      List.mem_cons_of_mem okLineA (List.mem_cons_self bigLine [okLineB]),
      bigLine_not_fits⟩
  · have hscan : (scanTake c2File.lines).1 = [okLineA] := by
      rw [show c2File.lines = [okLineA] ++ bigLine :: [okLineB] from rfl,
        scanTake_stops [okLineB]
          (by intro x hx; rw [List.mem_singleton] at hx; subst hx; decide)
          bigLine_not_fits]
    show procLines c2Cfg c2File.path (fun _ => false) emptyFS 0
        (scanTake c2File.lines).1 = _
    rw [hscan]
    decide

/-- C2 (amended): the decoder yields a bounded, finite line sequence; a
line exceeding the bound silently ends that file's scan — the worker
behaves exactly as if the file ended just before the over-long line
(lines before it are processed normally; it and all later lines are
dropped; no error is reported) — and, each worker owning its own file,
no other file's processing is affected. -/
theorem c2_oversized_line (cfg : ProcCfg) (fs : FS) (file : InputFile)
    (shut : Nat → Bool) (pre suf : List Line) (l : Line)
    (hsplit : file.lines = pre ++ l :: suf)
    (hfit : ∀ x ∈ pre, lineFits x = true) (hbig : lineFits l = false) :
    runWorker cfg fs file shut = runWorker cfg fs { file with lines := pre } shut ∧
    (scanTake file.lines).2 = true := by
  obtain ⟨path, se, oe, ze, lines⟩ := file
  simp only at hsplit
  subst hsplit
  have hscan : scanTake (pre ++ l :: suf) = (pre, true) := scanTake_stops suf hfit hbig
  refine ⟨?_, by rw [hscan]⟩
  rw [runWorker, runWorker]
  cases se <;> cases oe <;> cases ze <;>
    simp [setupFail, hscan, scanTake_all_fit hfit]

/-- Witness for C2's amended theorem at the concrete file `c2File`. -/
theorem c2_oversized_line_witness :
    runWorker c2Cfg emptyFS c2File (fun _ => false) =
      runWorker c2Cfg emptyFS { c2File with lines := [okLineA] } (fun _ => false) ∧
    (scanTake c2File.lines).2 = true :=
  c2_oversized_line c2Cfg emptyFS c2File (fun _ => false) [okLineA] [okLineB] bigLine
    rfl (by intro x hx; rw [List.mem_singleton] at hx; subst hx; decide)
    bigLine_not_fits

theorem fsAppend_lookup_self (files : List (String × List Char)) (n : String)
    (s : List Char) :
    List.lookup n (fsAppend files n s) =
      some (((List.lookup n files).getD []) ++ s) := by
  induction files with
  | nil => simp [fsAppend, List.lookup_cons]
  | cons e rest ih =>
    obtain ⟨m, c⟩ := e
    by_cases h : m = n
    · subst h
      simp [fsAppend, List.lookup_cons]
    · have hbeq : (n == m) = false := by
        simp only [beq_eq_false_iff_ne]
        exact fun hh => h hh.symm
      rw [fsAppend, if_neg h]
      simp [List.lookup_cons, hbeq, ih]

theorem fsAppend_lookup_ne (files : List (String × List Char)) {n m : String}
    (s : List Char) (h : m ≠ n) :
    List.lookup m (fsAppend files n s) = List.lookup m files := by
  have hbeq : (m == n) = false := by
    simp only [beq_eq_false_iff_ne]
    exact h
  induction files with
  | nil => simp [fsAppend, List.lookup_cons, hbeq]
  | cons e rest ih =>
    obtain ⟨k, c⟩ := e
    by_cases hk : k = n
    · subst hk
      rw [fsAppend, if_pos rfl]
      simp [List.lookup_cons, hbeq]
    · rw [fsAppend, if_neg hk]
      by_cases hmk : m = k
      · subst hmk
        simp [List.lookup_cons]
      · have hbk : (m == k) = false := by
          simp only [beq_eq_false_iff_ne]
          exact hmk
        simp [List.lookup_cons, hbk, ih]

theorem fsEnsure_lookup_self (files : List (String × List Char)) (n : String) :
    List.lookup n (fsEnsure files n) = some ((List.lookup n files).getD []) := by
  induction files with
  | nil => simp [fsEnsure, List.lookup_cons]
  | cons e rest ih =>
    obtain ⟨m, c⟩ := e
    by_cases h : m = n
    · subst h
      simp [fsEnsure, List.lookup_cons]
    · have hbeq : (n == m) = false := by
        simp only [beq_eq_false_iff_ne]
        exact fun hh => h hh.symm
      rw [fsEnsure, if_neg h]
      simp [List.lookup_cons, hbeq, ih]

/-- C8: `Processor.write` appends `line + "\n"` to the output file named
for (input-file stem, matched value), creating it if absent; an open
failure is logged as a warning and changes nothing; a write failure is
logged as a warning and drops only that line (the file may have been
created empty by the successful open); no other file is touched; and the
worker's scan loop continues with the subsequent lines of its file
regardless of the outcome of a line's write. -/
theorem c8_sink_append (output : String) (fs : FS) (inputPath value : String)
    (raw : List Char) :
    (fs.failOpen.contains (outFileName output inputPath value) = false →
     fs.failWrite.contains (outFileName output inputPath value) = false →
      write output fs inputPath value raw =
        ({ fs with files := fsAppend fs.files (outFileName output inputPath value)
                     (raw ++ [ '\n' ]) }, []) ∧
      List.lookup (outFileName output inputPath value)
          (write output fs inputPath value raw).1.files =
        some (((List.lookup (outFileName output inputPath value) fs.files).getD [])
          ++ (raw ++ [ '\n' ])) ∧
      ∀ m, m ≠ outFileName output inputPath value →
        List.lookup m (write output fs inputPath value raw).1.files =
          List.lookup m fs.files) ∧
    (fs.failOpen.contains (outFileName output inputPath value) = true →
      write output fs inputPath value raw =
        (fs, [.warnOpenOut (outFileName output inputPath value)])) ∧
    (fs.failOpen.contains (outFileName output inputPath value) = false →
     fs.failWrite.contains (outFileName output inputPath value) = true →
      write output fs inputPath value raw =
        ({ fs with files := fsEnsure fs.files (outFileName output inputPath value) },
         [.warnWriteOut (outFileName output inputPath value)]) ∧
      List.lookup (outFileName output inputPath value)
          (write output fs inputPath value raw).1.files =
        some ((List.lookup (outFileName output inputPath value) fs.files).getD [])) ∧
    (∀ (cfg : ProcCfg) (path : String) (shut : Nat → Bool) (fs1 : FS) (k : Nat)
        (l : Line) (rest : List Line), shut k = false →
      procLines cfg path shut fs1 k (l :: rest) =
        ⟨(procLines cfg path shut (handleLine cfg path fs1 l).1 (k + 1) rest).fs,
         (handleLine cfg path fs1 l).2 ++
           (procLines cfg path shut (handleLine cfg path fs1 l).1 (k + 1) rest).logs,
         (procLines cfg path shut (handleLine cfg path fs1 l).1 (k + 1) rest).processed
           + 1,
         (procLines cfg path shut (handleLine cfg path fs1 l).1 (k + 1) rest).exit⟩) := by
  refine ⟨?_, ?_, ?_, ?_⟩
  · intro h1 h2
    have heq : write output fs inputPath value raw =
        ({ fs with files := fsAppend fs.files (outFileName output inputPath value)
                     (raw ++ [ '\n' ]) }, []) := by
      rw [write]
      rw [if_neg (by rw [h1]; decide), if_neg (by rw [h2]; decide)]
    refine ⟨heq, ?_, ?_⟩
    · rw [heq]
      exact fsAppend_lookup_self _ _ _
    · intro m hm
      rw [heq]
      exact fsAppend_lookup_ne _ _ hm
  · intro h1
    rw [write, if_pos h1]
  · intro h1 h2
    have heq : write output fs inputPath value raw =
        ({ fs with files := fsEnsure fs.files (outFileName output inputPath value) },
         [.warnWriteOut (outFileName output inputPath value)]) := by
      rw [write]
      rw [if_neg (by rw [h1]; decide), if_pos h2]
    refine ⟨heq, ?_⟩
    rw [heq]
    exact fsEnsure_lookup_self _ _
  · intro cfg path shut fs1 k l rest hk
    rw [procLines, if_neg (by simp [hk])]

/-- Witness for C8 at concrete success, open-failure and write-failure
states. -/
theorem c8_sink_append_witness :
    write "out" emptyFS "in/a.zst" "x" [ 'L' ] =
      ({ emptyFS with
          files := fsAppend emptyFS.files (outFileName "out" "in/a.zst" "x")
                     ([ 'L' ] ++ [ '\n' ]) }, []) ∧
    write "out" c8FSopen "in/a.zst" "x" [ 'L' ] =
      (c8FSopen, [.warnOpenOut (outFileName "out" "in/a.zst" "x")]) ∧
    write "out" c8FSwrite "in/a.zst" "x" [ 'L' ] =
      ({ c8FSwrite with
          files := fsEnsure c8FSwrite.files (outFileName "out" "in/a.zst" "x") },
       [.warnWriteOut (outFileName "out" "in/a.zst" "x")]) ∧
    procLines c2Cfg "in/a.zst" (fun _ => false) emptyFS 0 [okLineA] =
      ⟨(procLines c2Cfg "in/a.zst" (fun _ => false)
          (handleLine c2Cfg "in/a.zst" emptyFS okLineA).1 1 []).fs,
       (handleLine c2Cfg "in/a.zst" emptyFS okLineA).2 ++
         (procLines c2Cfg "in/a.zst" (fun _ => false)
           (handleLine c2Cfg "in/a.zst" emptyFS okLineA).1 1 []).logs,
       (procLines c2Cfg "in/a.zst" (fun _ => false)
         (handleLine c2Cfg "in/a.zst" emptyFS okLineA).1 1 []).processed + 1,
       (procLines c2Cfg "in/a.zst" (fun _ => false)
         (handleLine c2Cfg "in/a.zst" emptyFS okLineA).1 1 []).exit⟩ := by
  refine ⟨((c8_sink_append "out" emptyFS "in/a.zst" "x" [ 'L' ]).1 rfl rfl).1,
    (c8_sink_append "out" c8FSopen "in/a.zst" "x" [ 'L' ]).2.1 (by decide),
    ((c8_sink_append "out" c8FSwrite "in/a.zst" "x" [ 'L' ]).2.2.1 (by decide)
      (by decide)).1,
    (c8_sink_append "out" emptyFS "in/a.zst" "x" [ 'L' ]).2.2.2 c2Cfg "in/a.zst"
      (fun _ => false) emptyFS 0 okLineA [] rfl⟩

/-- C9: over the entries `filepath.Walk` presents (the root and every
entry beneath it, depth-first), discovery keeps exactly the regular
files whose extension is `.zst` and whose name the filter pattern
matches (unanchored search), in traversal order; a delivered walk error
aborts the whole operation with that error before any worker starts (no
partial result — the run result is never `served`); and an empty result
is not an error: the run returns successfully with a warning, doing no
work. -/
theorem c9_discovery (cfg : ProcCfg) (visits : List Entry) :
    ((∀ e ∈ visits, e.err = false) →
      discover cfg.fileFilter visits =
        .ok ((visits.filter (eligible cfg.fileFilter)).map (·.path))) ∧
    ((∃ e ∈ visits, e.err = true) →
      ∃ p, discover cfg.fileFilter visits = .error p ∧
        ProcessAndServe cfg false visits = (.walkError p, []) ∧
        ∀ l, (ProcessAndServe cfg false visits).1 ≠ .served l) ∧
    (discover cfg.fileFilter visits = .ok [] →
      ProcessAndServe cfg false visits = (.noInput, [.warnNoInput])) ∧
    (∀ e : Entry, eligible cfg.fileFilter e = true ↔
      e.isDir = false ∧ extName e.name = ".zst" ∧
        ∃ m, m <:+: e.name.data ∧ m ∈ cfg.fileFilter.matches') := by
  refine ⟨discover_ok, ?_, ?_, ?_⟩
  · intro h
    obtain ⟨p, hp⟩ := discover_err h
    refine ⟨p, hp, ?_, ?_⟩
    · rw [ProcessAndServe, if_neg (by simp), hp]
    · intro l
      rw [ProcessAndServe, if_neg (by simp), hp]
      simp
  · intro h
    rw [ProcessAndServe, if_neg (by simp), h]
  · intro e
    rw [eligible]
    simp only [Bool.and_eq_true]
    constructor
    · rintro ⟨⟨hd, hx⟩, hs⟩
      refine ⟨by simpa using hd, by simpa using hx, (reSearch_iff _ _).mp hs⟩
    · rintro ⟨hd, hx, hs⟩
      exact ⟨⟨by simp [hd], by simp [hx]⟩, (reSearch_iff _ _).mpr hs⟩

/-- Witness for C9 at a concrete visit sequence: a subdirectory, one
eligible file, a wrong-extension file, a filtered-out file, a broken
entry, and an empty result. -/
theorem c9_discovery_witness :
    discover c9Cfg.fileFilter [eDir, eGood, eBadExt, eNoMatch] =
      .ok ["in/sub/a.zst"] ∧
    ProcessAndServe c9Cfg false [eErr, eGood] = (.walkError "in/broken", []) ∧
    ProcessAndServe c9Cfg false [eDir, eNoMatch] = (.noInput, [.warnNoInput]) := by
  refine ⟨?_, ?_, ?_⟩
  · have h := (c9_discovery c9Cfg [eDir, eGood, eBadExt, eNoMatch]).1
      (by intro e he; fin_cases he <;> rfl)
    have hl : (([eDir, eGood, eBadExt, eNoMatch]).filter
        (eligible c9Cfg.fileFilter)).map (·.path) = ["in/sub/a.zst"] := by decide
    rw [h, hl]
  · obtain ⟨p, hp, hps, _⟩ := (c9_discovery c9Cfg [eErr, eGood]).2.1
      ⟨eErr, by simp, rfl⟩
    have hpe : p = "in/broken" := by
      have hd : discover c9Cfg.fileFilter [eErr, eGood] = .error "in/broken" := rfl
      rw [hd] at hp
      exact (Except.error.inj hp).symm
    rw [hpe] at hps
    exact hps
  · exact (c9_discovery c9Cfg [eDir, eNoMatch]).2.2.1 rfl

/-- C6: starting from `Serve`'s initial state (all `N` slots free, no
active worker), along every run of the pool machine at most `N` workers
are concurrently active, for any configured `N`: admission consumes one
of the `N` semaphore slots and every worker exit releases it, so free
slots plus active workers is always exactly `N`. -/
theorem c6_admission_bound (cfg : ProcCfg) (files : List InputFile)
    (acts : List Act) (s' : Sched)
    (hrun : runM (initSched cfg files) acts = some s') :
    s'.active.length ≤ cfg.threads ∧
      s'.avail + s'.active.length = cfg.threads := by
  have h := runM_avail hrun
  rw [initSched] at h
  simp only [List.length_nil] at h
  omega

/-- Witness for C6: two admissions under two configured threads. -/
theorem c6_admission_bound_witness :
    c6S.active.length ≤ c6Cfg.threads ∧
      c6S.avail + c6S.active.length = c6Cfg.threads :=
  c6_admission_bound c6Cfg [c6f1, c6f2, c6f3] [.acquire, .acquire] c6S rfl

/-- C7: a setup fault of a worker's file (stat / open / decoder
construction, checked in that order) is caught inside the owning worker:
the error and the recovered panic are logged, only that worker is
removed (its siblings and the machine keep running), its admission slot
is released exactly once, the queue is untouched, no write is performed
— and, by admission-history conservation, a failed file is never
re-queued or re-admitted. -/
theorem c7_failure_isolated (s : Sched) (i : Nat) (w : Worker) (ev : LogEvent)
    (hw : s.active[i]? = some w) (hph : w.phase = .starting)
    (hfail : setupFail w.file = some ev) :
    step s (.setup i) = some (exitW s i [ev, .panicRecovered]) ∧
    (exitW s i [ev, .panicRecovered]).avail = s.avail + 1 ∧
    (exitW s i [ev, .panicRecovered]).active = s.active.eraseIdx i ∧
    (exitW s i [ev, .panicRecovered]).events = s.events ++ [ev, .panicRecovered] ∧
    (exitW s i [ev, .panicRecovered]).queue = s.queue ∧
    (exitW s i [ev, .panicRecovered]).writes = s.writes ∧
    (∀ f : InputFile, setupFail f = none ↔
      f.statErr = false ∧ f.openErr = false ∧ f.zstdErr = false) ∧
    (∀ (init : Sched) (acts : List Act) (t : Sched), runM init acts = some t →
      t.admitted ++ t.queue.map (·.path) = init.admitted ++ init.queue.map (·.path)) := by
  refine ⟨?_, rfl, rfl, rfl, rfl, rfl, ?_, fun _ _ _ h => runM_admitted h⟩
  · simp only [step, hw, hph, hfail]
  · intro f
    rw [setupFail]
    constructor
    · intro h
      by_cases h1 : f.statErr = true
      · rw [if_pos h1] at h
        exact absurd h (by simp)
      · rw [if_neg h1] at h
        by_cases h2 : f.openErr = true
        · rw [if_pos h2] at h
          exact absurd h (by simp)
        · rw [if_neg h2] at h
          by_cases h3 : f.zstdErr = true
          · rw [if_pos h3] at h
            exact absurd h (by simp)
          · exact ⟨by simpa using h1, by simpa using h2, by simpa using h3⟩
    · rintro ⟨h1, h2, h3⟩
      rw [if_neg (by rw [h1]; decide), if_neg (by rw [h2]; decide),
        if_neg (by rw [h3]; decide)]

/-- Witness for C7: a stat-failing worker beside a healthy sibling. -/
theorem c7_failure_isolated_witness :
    step c7S (.setup 0) =
      some (exitW c7S 0 [.errStat "in/bad.zst", .panicRecovered]) ∧
    (exitW c7S 0 [.errStat "in/bad.zst", .panicRecovered]).avail = c7S.avail + 1 ∧
    (exitW c7S 0 [.errStat "in/bad.zst", .panicRecovered]).active =
      c7S.active.eraseIdx 0 ∧
    (exitW c7S 0 [.errStat "in/bad.zst", .panicRecovered]).queue = c7S.queue := by
  obtain ⟨h1, h2, h3, _, h5, _, _, _⟩ :=
    c7_failure_isolated c7S 0 ⟨badFile, .starting⟩ (.errStat "in/bad.zst")
      rfl rfl rfl
  exact ⟨h1, h2, h3, h5⟩

/-- C1 (amended): once the shutdown flag is set it stays set, and along
any subsequent run the number of additionally processed lines is bounded
by the number of workers already committed to their current line — every
in-flight worker finishes at most that line and none (in-flight or
admitted later) proceeds to another; and the `Shutdown` select returns
success exactly when the workers' completion precedes the deadline, and
the deadline-exceeded error otherwise. -/
theorem c1_shutdown_quiescence (s s' : Sched) (acts : List Act)
    (hsd : s.shutdown = true) (hrun : runM s acts = some s') :
    s'.shutdown = true ∧
    s'.execCount + committedCount s' ≤ s.execCount + committedCount s ∧
    (∀ deadline t : Nat,
      (ShutdownOutcome deadline (some t) = .ok () ↔ t < deadline) ∧
      ShutdownOutcome deadline none = .error "context deadline exceeded") := by
  refine ⟨runM_shutdown_mono hrun hsd, runM_shut_exec hrun hsd, ?_⟩
  intro deadline t
  constructor
  · rw [ShutdownOutcome]
    by_cases h : t < deadline
    · rw [if_pos h]
      simp [h]
    · rw [if_neg h]
      simp [h]
  · rfl

/-- Witness for C1's amended theorem: a committed worker finishes exactly
its current line after shutdown. -/
theorem c1_shutdown_quiescence_witness :
    c1WitSPost.shutdown = true ∧
    c1WitSPost.execCount + committedCount c1WitSPost ≤
      c1WitState.execCount + committedCount c1WitState ∧
    ShutdownOutcome 5 (some 3) = .ok () := by
  obtain ⟨h1, h2, h3⟩ :=
    c1_shutdown_quiescence c1WitState c1WitSPost [.exec 0, .poll 0] rfl rfl
  exact ⟨h1, h2, (h3 5 3).1.mpr (by omega)⟩

/-- C1 (counterexample): after `Shutdown` sets the flag, the admission
loop still admits workers for files not yet started (neither
`sem.Acquire`'s context nor the loop consults the flag), and such a
worker runs its whole setup — the file is opened and its decoder and
scanner are constructed (it reaches the scanning phase) — before the
first flag poll stops it.  So "no worker begins processing a new file
after Shutdown" is false of the code: with one thread and two files,
after the first worker exits on the flag, the second file's worker is
still admitted and set up, post-shutdown. -/
theorem c1_counterexample :
    (runM (initSched c1Cfg [c1FileA, c1FileB])
        [.acquire, .setup 0, .shut, .poll 0]).map
        (fun s => (s.shutdown, s.admitted, s.queue.map (·.path),
                   s.active.length)) =
      some (true, ["in/a.zst"], ["in/b.zst"], 0) ∧
    (runM (initSched c1Cfg [c1FileA, c1FileB])
        [.acquire, .setup 0, .shut, .poll 0, .acquire, .setup 0]).map
        (fun s => (s.shutdown, s.admitted, s.active.map fun w => w.file.path,
                   s.active.map fun w => w.phase, s.execCount)) =
      some (true, ["in/a.zst", "in/b.zst"], ["in/b.zst"],
            [.scanning 0 [lineN]], 0) := by
  constructor
  · rfl
  · rfl

/-- Witness for C3: in partial mode with candidates `["a", "ab"]`, the
field value `"zab"` matches both, and the line goes to `"a"`'s file
only. -/
theorem c3_first_match_wins_witness :
    lineMatch c3Cfg c3Line = some "a" ∧
    lineFiles c3Cfg "in/x.zst" c3Line = [outFileName "out" "in/x.zst" "a"] := by
  obtain ⟨k, hk, hkm, hall, hlm, hlf⟩ :=
    c3_first_match_wins c3Cfg "in/x.zst" c3Line 0 1 (by omega) (by decide)
      (by decide) (by decide) (by decide) (by decide)
  have hk0 : k = 0 := Nat.le_zero.mp hk
  subst hk0
  exact ⟨hlm, hlf⟩

/-- Witness for C5: the empty line (which is also not JSON) is skipped
with no write and no log, under the configured matcher and under any
other. -/
theorem c5_empty_field_skipped_witness :
    lineMatch c10Cfg c5Line = none ∧
    handleLine c10Cfg "in/x.zst" emptyFS c5Line = (emptyFS, []) ∧
    lineFiles c10Cfg "in/x.zst" c5Line = [] ∧
    lineMatch { c10Cfg with matchMode := "partial", values := ["q"],
                            valuesRegex := [] } c5Line = none := by
  obtain ⟨h1, h2⟩ := c5_empty_field_skipped c10Cfg "in/x.zst" emptyFS c5Line
  obtain ⟨ha, hb, hc⟩ := h1 rfl
  exact ⟨ha, hb, hc, (h2 rfl).1 "partial" ["q"] []⟩

/-- Witness for C10: extraction is empty on non-JSON lines and absent
fields (silently skipped), and the numeric field `42` matches the
candidate `"42"` in exact mode. -/
theorem c10_field_extraction_witness :
    extractField .invalid "subreddit" = "" ∧
    extractField (.record [("a", .str "b")]) "subreddit" = "" ∧
    handleLine c10Cfg "in/x.zst" emptyFS ⟨"z".data, .invalid⟩ = (emptyFS, []) ∧
    lineMatch c10Cfg ⟨"z".data, .record [("score", .num "42")]⟩ = some "42" := by
  obtain ⟨h1, h2, h3, h4, h5, h6⟩ := c10_field_extraction
  exact ⟨h1 "subreddit", h2 _ "subreddit" (by decide),
    h5 c10Cfg "in/x.zst" emptyFS _ rfl,
    h6 c10Cfg "z".data rfl rfl (by decide)⟩

end RProc
